import Mathlib

/-!
Verification of the value-classification helpers of the objconv engine
(`value.go` and the format-module registration fragments).

The Go values handled by `isEmptyValue` / `isZeroValue` are modelled by the
inductive `Value` below: each constructor corresponds to one group of
`reflect.Kind`s the two switches discriminate on.  Machine integers are
modelled as unbounded `Int`/`Nat` (the predicates only compare with 0, so the
width never influences the result and is kept as a tag); floating point
payloads are modelled as rationals, for which comparison with 0 coincides
with Go `==` on the non-NaN values.  `reflect.Value.IsNil` becomes an explicit
`Bool` carried by the nullable constructors, and the invalid `reflect.Value`
(obtained from a nil `interface{}` argument) is the constructor `invalid`.
-/

namespace Objconv

/-- Width tag of a Go signed integer kind (`reflect.Int .. reflect.Int64`). -/
inductive IntW where
  | i | i8 | i16 | i32 | i64
deriving DecidableEq, Repr

/-- Width tag of a Go unsigned integer kind
(`reflect.Uint .. reflect.Uint64`, `reflect.Uintptr`). -/
inductive UintW where
  | u | u8 | u16 | u32 | u64 | uptr
deriving DecidableEq, Repr

/-- Width tag of a Go floating point kind (`reflect.Float32`, `reflect.Float64`). -/
inductive FloatW where
  | f32 | f64
deriving DecidableEq, Repr

/-- Model of a `reflect.Value` as discriminated by the switches in
`isEmptyValue` and `isZeroValue`.  A struct field carries, besides its value,
the flag saying whether the cached struct descriptor lists it (ignored and
unexported fields are absent from the descriptor). -/
inductive Value where
  | invalid
  | boolV (b : Bool)
  | intV (w : IntW) (i : Int)
  | uintV (w : UintW) (n : Nat)
  | floatV (w : FloatW) (x : Rat)
  | stringV (s : List Nat)
  | sliceV ( isNil : Bool) (elems : List Value)
  | arrayV (elems : List Value)
  | mapV ( isNil : Bool) (entries : List (Value × Value))
  | ptrV ( isNil : Bool)
  | ifaceV ( isNil : Bool)
  | chanV ( isNil : Bool)
  | funcV ( isNil : Bool)
  | unsafePtrV ( isNil : Bool)
  | structV (fields : List (Bool × Value))

/-- Shallow embedding of `isEmptyValue` (`value.go`, lines 71-92): the switch
over `v.Kind()` with the trailing `return false` for every kind the switch
does not list (notably `reflect.Struct`). -/
def isEmptyValue : Value → Bool
  | .invalid => true
  | .arrayV elems => elems.length == 0
  | .mapV _ entries => entries.length == 0
  | .sliceV _ elems => elems.length == 0
  | .stringV s => s.length == 0
  | .boolV b => !b
  | .intV _ i => i == 0
  | .uintV _ n => n == 0
  | .floatV _ x => x == 0
  | .ifaceV n => n
  | .ptrV n => n
  | .chanV n => n
  | .funcV n => n
  | .unsafePtrV n => n
  | .structV _ => false

/-- Shallow embedding of `IsEmptyValue` (`value.go`, line 66): a nil
`interface{}` argument yields the invalid `reflect.Value`, every other
argument is passed through to `isEmptyValue`. -/
def IsEmptyValue (v : Value) : Bool := isEmptyValue v

mutual

/-- Shallow embedding of `isZeroValue` (`value.go`, lines 100-125). -/
def isZeroValue : Value → Bool
  | .invalid => true
  | .mapV n _ => n
  | .sliceV n _ => n
  | .ptrV n => n
  | .ifaceV n => n
  | .chanV n => n
  | .funcV n => n
  | .boolV b => !b
  | .intV _ i => i == 0
  | .uintV _ n => n == 0
  | .floatV _ x => x == 0
  | .stringV s => s.length == 0
  | .unsafePtrV n => n
  | .arrayV elems => isZeroArray elems
  | .structV fields => isZeroStruct fields

/-- Shallow embedding of `isZeroArray` (`value.go`, lines 127-134): the loop
over `v.Index(i)` returning false at the first non-zero element. -/
def isZeroArray : List Value → Bool
  | [] => true
  | v :: vs => isZeroValue v && isZeroArray vs

/-- Shallow embedding of `isZeroStruct` (`value.go`, lines 136-146).
Modelled from the spec: the struct descriptor cache (`structCache`) is not
part of the sources; per the spec its field list omits ignored and unexported
fields, so descriptor membership is carried as the boolean on each field and
the loop checks exactly the listed fields. -/
def isZeroStruct : List (Bool × Value) → Bool
  | [] => true
  | (inDesc, v) :: fs => (!inDesc || isZeroValue v) && isZeroStruct fs

end

/-- Shallow embedding of `IsZeroValue` (`value.go`, line 96). -/
def IsZeroValue (v : Value) : Bool := isZeroValue v

/-- Shallow embedding of the enumeration `Type` (`value.go`, lines 15-29).
`Type` is a reserved word in Lean, hence the primed name; the constructors
keep the Go constant names and declaration order, `Unknown` first. -/
inductive Type' where
  | Unknown | Nil | Bool | Int | Uint | Float | String | Bytes
  | Time | Duration | Error | Array | Map
deriving DecidableEq, Repr

/-- The numeric value `iota` assigns to each constant of `Type`
(`value.go`, lines 15-29): `Unknown = 0` up to `Map = 12`. -/
def Type'.code : Type' → Nat
  | .Unknown => 0
  | .Nil => 1
  | .Bool => 2
  | .Int => 3
  | .Uint => 4
  | .Float => 5
  | .String => 6
  | .Bytes => 7
  | .Time => 8
  | .Duration => 9
  | .Error => 10
  | .Array => 11
  | .Map => 12

/-- Shallow embedding of the method `Type.String` (`value.go`, lines 32-61):
every named canonical kind gets its lowercase name, the default case yields
the placeholder text. -/
def Type'.toName : Type' → List Char
  | .Nil => [ 'n', 'i', 'l' ]
  | .Bool => [ 'b', 'o', 'o', 'l' ]
  | .Int => [ 'i', 'n', 't' ]
  | .Uint => [ 'u', 'i', 'n', 't' ]
  | .Float => [ 'f', 'l', 'o', 'a', 't' ]
  | .String => [ 's', 't', 'r', 'i', 'n', 'g' ]
  | .Bytes => [ 'b', 'y', 't', 'e', 's' ]
  | .Time => [ 't', 'i', 'm', 'e' ]
  | .Duration => [ 'd', 'u', 'r', 'a', 't', 'i', 'o', 'n' ]
  | .Error => [ 'e', 'r', 'r', 'o', 'r' ]
  | .Array => [ 'a', 'r', 'r', 'a', 'y' ]
  | .Map => [ 'm', 'a', 'p' ]
  | .Unknown => [ '<', 't', 'y', 'p', 'e', '>' ]

/-- The twelve canonical kinds in declaration order, i.e. every constant of
`Type` except the `Unknown` sentinel. -/
def canonicalTypes : List Type' :=
  [.Nil, .Bool, .Int, .Uint, .Float, .String, .Bytes,
   .Time, .Duration, .Error, .Array, .Map]

/-! ### The zero-value cache (`value.go`, lines 148-168)

`reflect.Type` is modelled by the inductive `RTy` below, covering the kinds
the `Value` model distinguishes, and `reflect.Zero` by `reflectZero`.  The Go
map `zeroCache` is an association list in which a later insertion for the
same key shadows an earlier one, exactly as Go map assignment overwrites. -/

/-- Model of a `reflect.Type` for the zero-value cache. -/
inductive RTy where
  | bool
  | int (w : IntW)
  | uint (w : UintW)
  | float (w : FloatW)
  | string
  | slice (t : RTy)
  | map (k v : RTy)
  | ptr (t : RTy)
  | iface
  | chan
  | func
  | array (n : Nat) (t : RTy)
deriving DecidableEq, Repr

/-- Model of `reflect.Zero`: the canonical zero value of each type — false,
zero numbers, empty string, nil references, and an array of zero elements. -/
def reflectZero : RTy → Value
  | .bool => .boolV false
  | .int w => .intV w 0
  | .uint w => .uintV w 0
  | .float w => .floatV w 0
  | .string => .stringV []
  | .slice _ => .sliceV true []
  | .map _ _ => .mapV true []
  | .ptr _ => .ptrV true
  | .iface => .ifaceV true
  | .chan => .chanV true
  | .func => .funcV true
  | .array n t => .arrayV (List.replicate n (reflectZero t))

/-- The `zeroCache` map: keyed by type identity, most recent insertion wins. -/
abbrev Cache := List (RTy × Value)

/-- Go map read `v, ok := zeroCache[t]`. -/
def lookupCache (c : Cache) (t : RTy) : Option Value :=
  match c with
  | [] => none
  | (t', v) :: rest => if t' = t then some v else lookupCache rest t

/-- Go map assignment `zeroCache[t] = v`: overwrites any previous entry. -/
def insertCache (c : Cache) (t : RTy) (v : Value) : Cache :=
  (t, v) :: c

/-- Shallow embedding of `zeroValueOf` (`value.go`, lines 155-168) as seen by
a single caller: look the type up, on a miss build `reflect.Zero(t)` and
insert it.  Returns the value together with the updated cache. -/
def zeroValueOf (c : Cache) (t : RTy) : Value × Cache :=
  match lookupCache c t with
  | some v => (v, c)
  | none =>
      let v := reflectZero t
      (v, insertCache c t v)

/-- The cache invariant: every entry stores the zero value of its key. -/
def cacheWF (c : Cache) : Prop :=
  ∀ p ∈ c, p.2 = reflectZero p.1

/-! ### Interleaved execution of `zeroValueOf` (`value.go`, lines 155-168)

Two threads call `zeroValueOf` on the same type `t`.  Each thread runs the
statement sequence of the Go function, its progress recorded by a program
counter; the `sync.RWMutex` is a pair (active reader count, writer flag) with
the usual semantics: `RLock` blocks while a writer holds the lock, `Lock`
blocks until there is no reader and no writer. -/

/-- Program counter of one thread inside `zeroValueOf`:
`start` before `RLock`; `rlocked` holding the read lock, about to read the
map; `readHeld r` holding the read lock with the map result `r`; `released r`
after `RUnlock`; `built v` after `v = reflect.Zero(t)` (no lock held);
`wlocked v` holding the write lock; `inserted v` after `zeroCache[t] = v`,
still holding the write lock; `done v` returned with value `v`. -/
inductive PC where
  | start
  | rlocked
  | readHeld (r : Option Value)
  | released (r : Option Value)
  | built (v : Value)
  | wlocked (v : Value)
  | inserted (v : Value)
  | done (v : Value)

/-- 1 while the thread is between `RLock` and `RUnlock`, else 0. -/
def PC.readCount : PC → Nat
  | .rlocked => 1
  | .readHeld _ => 1
  | _ => 0

/-- Whether the thread is between `Lock` and `Unlock`. -/
def PC.writing : PC → Bool
  | .wlocked _ => true
  | .inserted _ => true
  | _ => false

/-- The state shared by the two threads: the `zeroMutex` and the `zeroCache`. -/
structure Shared where
  readers : Nat
  writer : Bool
  cache : Cache

/-- One atomic step of a single thread executing `zeroValueOf t`, following
the statements of `value.go` lines 155-168 in order. -/
inductive TStep (t : RTy) : Shared → PC → Shared → PC → Prop where
  | rlock (r : Nat) (c : Cache) :
      TStep t ⟨r, false, c⟩ .start ⟨r + 1, false, c⟩ .rlocked
  | readc (sh : Shared) :
      TStep t sh .rlocked sh (.readHeld (lookupCache sh.cache t))
  | runlock (r : Nat) (w : Bool) (c : Cache) (x : Option Value) :
      TStep t ⟨r + 1, w, c⟩ (.readHeld x) ⟨r, w, c⟩ (.released x)
  | hit (sh : Shared) (v : Value) :
      TStep t sh (.released (some v)) sh (.done v)
  | build (sh : Shared) :
      TStep t sh (.released none) sh (.built (reflectZero t))
  | wlock (c : Cache) (v : Value) :
      TStep t ⟨0, false, c⟩ (.built v) ⟨0, true, c⟩ (.wlocked v)
  | ins (r : Nat) (w : Bool) (c : Cache) (v : Value) :
      TStep t ⟨r, w, c⟩ (.wlocked v) ⟨r, w, insertCache c t v⟩ (.inserted v)
  | wunlock (r : Nat) (c : Cache) (v : Value) :
      TStep t ⟨r, true, c⟩ (.inserted v) ⟨r, false, c⟩ (.done v)

/-- A configuration of the two-thread system. -/
structure Config where
  sh : Shared
  p : PC
  q : PC

/-- An interleaving step: either thread takes its next enabled action. -/
inductive Step (t : RTy) : Config → Config → Prop where
  | left {sh sh' : Shared} {p p' q : PC} :
      TStep t sh p sh' p' → Step t ⟨sh, p, q⟩ ⟨sh', p', q⟩
  | right {sh sh' : Shared} {p q q' : PC} :
      TStep t sh q sh' q' → Step t ⟨sh, p, q⟩ ⟨sh', p, q'⟩

/-- Every value a thread has read from the cache, built, inserted or
returned is the zero value of `t`. -/
def pcOK (t : RTy) : PC → Prop
  | .start => True
  | .rlocked => True
  | .readHeld r => ∀ v, r = some v → v = reflectZero t
  | .released r => ∀ v, r = some v → v = reflectZero t
  | .built v => v = reflectZero t
  | .wlocked v => v = reflectZero t
  | .inserted v => v = reflectZero t
  | .done v => v = reflectZero t

/-- The inductive invariant of the two-thread system: the cache is
well-formed, all thread-local values are the zero value of `t`, and the lock
state agrees with the two program counters (the reader count is the number of
threads inside the read section, the writer flag is set exactly while a
thread is inside the write section, and at most one thread is ever inside the
write section). -/
def Inv (t : RTy) (cfg : Config) : Prop :=
  cacheWF cfg.sh.cache ∧
  pcOK t cfg.p ∧ pcOK t cfg.q ∧
  cfg.sh.readers = cfg.p.readCount + cfg.q.readCount ∧
  cfg.sh.writer = (cfg.p.writing || cfg.q.writing) ∧
  ¬(cfg.p.writing = true ∧ cfg.q.writing = true)

/-- The initial configuration: lock free, both threads before `RLock`. -/
def initConfig (c : Cache) : Config :=
  ⟨⟨0, false, c⟩, .start, .start⟩

/-! ### The codec registry and the format-module `init` functions

The registry itself (`objconv.Register` / `mimetype.Register`) is not among
the sources; only the `init` functions of the `cbor` and `resp` modules are.
The registry is modelled from the spec (§6): a name-to-codec table with
case-insensitive content-type-like names, where a format may register the
same codec under several aliases. -/

/-- The emitter/parser constructor functions the two format modules close
over (`NewEmitter`/`NewParser` closures in the `init` functions). -/
inductive Ctor where
  | cborEmitter | cborParser | respEmitter | respParser
deriving DecidableEq, Repr

/-- Model of `objconv.Codec` / `mimetype.Codec`: the pair of constructor
functions a format registers. -/
structure Codec where
  NewEmitter : Ctor
  NewParser : Ctor
deriving DecidableEq, Repr

/-- The registry table: later registrations shadow earlier ones. -/
abbrev Registry := List (String × Codec)

/-- Lowercase normal form of a registry name (names are case-insensitive). -/
def lowerName (s : String) : String := ⟨s.data.map Char.toLower⟩

/-- Modelled from the spec: `Register(name, codec)` of the codec registry,
which is not among the sources.  Names are case-insensitive, so they are
normalised to lowercase on insertion. -/
def Register (reg : Registry) (name : String) (c : Codec) : Registry :=
  (lowerName name, c) :: reg

/-- Modelled from the spec: case-insensitive lookup in the codec registry. -/
def lookupCodec (reg : Registry) (name : String) : Option Codec :=
  match reg with
  | [] => none
  | (n, c) :: rest => if n = lowerName name then some c else lookupCodec rest name

/-- The codec value the `cbor` module's `init` builds (part_000, lines 9-13). -/
def cborCodec : Codec := ⟨.cborEmitter, .cborParser⟩

/-- The alias list of the `cbor` module's `init` (part_000, lines 15-18). -/
def cborNames : List String := ["application/cbor", "cbor"]

/-- Shallow embedding of the `cbor` package `init` (part_000, lines 9-21):
register the one codec value under each alias in order. -/
def cborInit (reg : Registry) : Registry :=
  cborNames.foldl (fun r name => Register r name cborCodec) reg

/-- The codec value the `resp` module's `init` builds (part_000, lines 30-34). -/
def respCodec : Codec := ⟨.respEmitter, .respParser⟩

/-- The alias list of the `resp` module's `init` (part_000, lines 36-40). -/
def respNames : List String := ["application/resp", "text/resp", "resp"]

/-- Shallow embedding of the `resp` package `init` (part_000, lines 30-43). -/
def respInit (reg : Registry) : Registry :=
  respNames.foldl (fun r name => Register r name respCodec) reg

/-- The registry after both format modules have run their `init`. -/
def registryAfterInit : Registry := respInit (cborInit [])

/-! ### `stringNoCopy` (`value.go`, lines 206-215) -/

/-- A Go string read through an unsafe `reflect.StringHeader` whose `Data`
field is the address of `base[0]` and whose `Len` field is `len`: its content
is the first `len` bytes stored at that address. -/
def stringFromHeader (base : List Nat) (len : Nat) : List Nat :=
  base.take len

/-- Shallow embedding of `stringNoCopy` (`value.go`, lines 206-215): a
length-0 slice (so also a nil one, which has no element to take the address
of) yields the literal empty string, otherwise the slice's buffer is aliased
as a string of the same length. -/
def stringNoCopy (b : List Nat) : List Nat :=
  let n := b.length
  if n == 0 then [] else stringFromHeader b n

/-! ## Helper lemmas -/

theorem isZeroArray_eq_all (es : List Value) :
    isZeroArray es = es.all isZeroValue := by
  induction es with
  | nil => rfl
  | cons v vs ih => simp [isZeroArray, ih]

theorem isZeroStruct_eq_all (fs : List (Bool × Value)) :
    isZeroStruct fs = fs.all fun f => !f.1 || isZeroValue f.2 := by
  induction fs with
  | nil => rfl
  | cons f fs ih => obtain ⟨d, v⟩ := f; simp [isZeroStruct, ih]

theorem lookupCache_wf {c : Cache} (h : cacheWF c) {t : RTy} {v : Value}
    (hv : lookupCache c t = some v) : v = reflectZero t := by
  induction c with
  | nil => simp [lookupCache] at hv
  | cons p rest ih =>
      obtain ⟨t', w⟩ := p
      rw [lookupCache] at hv
      split at hv
      · next heq =>
          cases hv
          have hw := h (t', v) (by simp)
          simpa [heq] using hw
      · exact ih (fun p hp => h p (List.mem_cons_of_mem _ hp)) hv

/-! ## Claims -/

/-- C1: `isZeroValue` settles nullable/reference-like kinds (maps, slices,
pointers, interfaces, channels, functions) by nullness alone, agrees with
`isEmptyValue` on every scalar kind, and recurses through composites: an
array is zero iff every element is zero, and a struct is zero iff every field
listed in its cached descriptor is zero, fields absent from the descriptor
never affecting the result. -/
theorem isZeroValue_spec :
    (∀ n es, isZeroValue (.sliceV n es) = n) ∧
    (∀ n es, isZeroValue (.mapV n es) = n) ∧
    (∀ n, isZeroValue (.ptrV n) = n) ∧
    (∀ n, isZeroValue (.ifaceV n) = n) ∧
    (∀ n, isZeroValue (.chanV n) = n) ∧
    (∀ n, isZeroValue (.funcV n) = n) ∧
    (∀ b, isZeroValue (.boolV b) = isEmptyValue (.boolV b)) ∧
    (∀ w i, isZeroValue (.intV w i) = isEmptyValue (.intV w i)) ∧
    (∀ w n, isZeroValue (.uintV w n) = isEmptyValue (.uintV w n)) ∧
    (∀ w x, isZeroValue (.floatV w x) = isEmptyValue (.floatV w x)) ∧
    (∀ s, isZeroValue (.stringV s) = isEmptyValue (.stringV s)) ∧
    (∀ es, isZeroValue (.arrayV es) = es.all isZeroValue) ∧
    (∀ fs, isZeroValue (.structV fs) = fs.all fun f => !f.1 || isZeroValue f.2) ∧
    (∀ fs v, isZeroValue (.structV ((false, v) :: fs)) = isZeroValue (.structV fs)) := by
  refine ⟨fun n es => rfl, fun n es => rfl, fun n => rfl, fun n => rfl,
    fun n => rfl, fun n => rfl, fun b => rfl, fun w i => rfl, fun w n => rfl,
    fun w x => rfl, fun s => rfl, fun es => ?_, fun fs => ?_, fun fs v => ?_⟩
  · rw [isZeroValue]; exact isZeroArray_eq_all es
  · rw [isZeroValue]; exact isZeroStruct_eq_all fs
  · rw [isZeroValue, isZeroValue, isZeroStruct]; simp

/-- C2: `isEmptyValue` is shallow: arrays, slices, maps and strings are empty
iff their length is 0, booleans iff false, the numeric kinds iff zero,
pointers and interfaces iff nil; it never recurses — a struct is never empty
and a nonzero-length array is never empty, whatever its elements hold. -/
theorem isEmptyValue_spec :
    (∀ es, isEmptyValue (.arrayV es) = (es.length == 0)) ∧
    (∀ n es, isEmptyValue (.sliceV n es) = (es.length == 0)) ∧
    (∀ n es, isEmptyValue (.mapV n es) = (es.length == 0)) ∧
    (∀ s, isEmptyValue (.stringV s) = (s.length == 0)) ∧
    (∀ b, isEmptyValue (.boolV b) = !b) ∧
    (∀ w i, isEmptyValue (.intV w i) = (i == 0)) ∧
    (∀ w n, isEmptyValue (.uintV w n) = (n == 0)) ∧
    (∀ w x, isEmptyValue (.floatV w x) = (x == 0)) ∧
    (∀ n, isEmptyValue (.ptrV n) = n) ∧
    (∀ n, isEmptyValue (.ifaceV n) = n) ∧
    (∀ fs, isEmptyValue (.structV fs) = false) ∧
    (∀ v vs, isEmptyValue (.arrayV (v :: vs)) = false) := by
  refine ⟨fun es => rfl, fun n es => rfl, fun n es => rfl, fun s => rfl,
    fun b => rfl, fun w i => rfl, fun w n => rfl, fun w x => rfl, fun n => rfl,
    fun n => rfl, fun fs => rfl, fun v vs => ?_⟩
  simp [isEmptyValue]

/-- C3: neither predicate implies the other.  A non-nil slice of length 0 is
empty but not zero, and a length-1 array holding the zero integer is zero but
not empty. -/
theorem empty_zero_incomparable :
    (isEmptyValue (.sliceV false []) = true ∧
     isZeroValue (.sliceV false []) = false) ∧
    (isZeroValue (.arrayV [.intV .i 0]) = true ∧
     isEmptyValue (.arrayV [.intV .i 0]) = false) := by
  refine ⟨⟨rfl, ?_⟩, ⟨?_, ?_⟩⟩
  · simp [isZeroValue]
  · simp [isZeroValue, isZeroArray]
  · simp [isEmptyValue]

/-- C4: on every scalar value — boolean, signed integer of any width,
unsigned integer of any width (uintptr included), float of either width, or
string — `IsEmptyValue` and `IsZeroValue` return the same boolean. -/
theorem scalar_empty_eq_zero :
    (∀ b, IsEmptyValue (.boolV b) = IsZeroValue (.boolV b)) ∧
    (∀ w i, IsEmptyValue (.intV w i) = IsZeroValue (.intV w i)) ∧
    (∀ w n, IsEmptyValue (.uintV w n) = IsZeroValue (.uintV w n)) ∧
    (∀ w x, IsEmptyValue (.floatV w x) = IsZeroValue (.floatV w x)) ∧
    (∀ s, IsEmptyValue (.stringV s) = IsZeroValue (.stringV s)) := by
  exact ⟨fun b => rfl, fun w i => rfl, fun w n => rfl, fun w x => rfl,
    fun s => rfl⟩

/-- C5: the canonical kinds are exactly the twelve constants Nil, Bool, Int,
Uint, Float, String, Bytes, Time, Duration, Error, Array, Map, in strictly
increasing declaration order; every other constant of the enumeration (only
the `Unknown` sentinel) falls through `Type.String` to the placeholder and is
not canonical. -/
theorem canonicalTypes_spec :
    canonicalTypes.length = 12 ∧
    List.Pairwise (fun a b => Type'.code a < Type'.code b) canonicalTypes ∧
    (∀ t : Type', t ∈ canonicalTypes ↔ t.toName ≠ Type'.Unknown.toName) ∧
    (∀ t : Type', t = .Unknown ∨ t ∈ canonicalTypes) := by
  refine ⟨by decide, by decide, ?_, ?_⟩
  · intro t; cases t <;> simp [canonicalTypes, Type'.toName]
  · intro t; cases t <;> simp [canonicalTypes]

/-- C8: each format module registers one codec value under all of its
aliases: after the two `init` functions run, both CBOR aliases resolve to the
one CBOR emitter/parser pair and all three RESP aliases resolve to the one
RESP pair. -/
theorem register_aliases_spec :
    lookupCodec registryAfterInit ("application/cbor") = some cborCodec ∧
    lookupCodec registryAfterInit ("cbor") = some cborCodec ∧
    lookupCodec registryAfterInit ("application/resp") = some respCodec ∧
    lookupCodec registryAfterInit ("text/resp") = some respCodec ∧
    lookupCodec registryAfterInit ("resp") = some respCodec := by
  refine ⟨by decide, by decide, by decide, by decide, by decide⟩

/-- C9: both predicates are total at the public interface: the invalid value
(a nil `interface{}` argument) is both empty and zero, and channels,
functions and unsafe pointers — although classification rejects them — get a
boolean answer, empty/zero iff the handle is nil. -/
theorem predicates_total_spec :
    IsEmptyValue .invalid = true ∧ IsZeroValue .invalid = true ∧
    (∀ n, isEmptyValue (.chanV n) = n ∧ isZeroValue (.chanV n) = n) ∧
    (∀ n, isEmptyValue (.funcV n) = n ∧ isZeroValue (.funcV n) = n) ∧
    (∀ n, isEmptyValue (.unsafePtrV n) = n ∧ isZeroValue (.unsafePtrV n) = n) := by
  exact ⟨rfl, rfl, fun n => ⟨rfl, rfl⟩, fun n => ⟨rfl, rfl⟩, fun n => ⟨rfl, rfl⟩⟩

/-- C10: `stringNoCopy` returns a string whose length and byte content equal
its input's, and on a length-0 (so also nil) input it returns the empty
string without touching any element. -/
theorem stringNoCopy_spec :
    (∀ b, stringNoCopy b = b ∧ (stringNoCopy b).length = b.length) ∧
    stringNoCopy [] = [] := by
  refine ⟨fun b => ?_, rfl⟩
  have hb : stringNoCopy b = b := by
    by_cases h : b.length = 0
    · simp [stringNoCopy, h, List.length_eq_zero.mp h]
    · simp [stringNoCopy, h, stringFromHeader]
  exact ⟨hb, by rw [hb]⟩

/-- C6: `zeroValueOf` returns the canonical zero value of its type on every
call — on a first use that builds and inserts the cache entry as well as on a
repeated use served from the cache — and it preserves the cache invariant, so
memoization never changes the returned value. -/
theorem zeroValueOf_spec (c : Cache) (t : RTy) (h : cacheWF c) :
    (zeroValueOf c t).1 = reflectZero t ∧
    cacheWF (zeroValueOf c t).2 ∧
    (zeroValueOf (zeroValueOf c t).2 t).1 = reflectZero t := by
  cases hv : lookupCache c t with
  | some v =>
      have hz : v = reflectZero t := lookupCache_wf h hv
      refine ⟨by simp [zeroValueOf, hv, hz], ?_, by simp [zeroValueOf, hv, hz]⟩
      simpa [zeroValueOf, hv] using h
  | none =>
      have hwf : cacheWF (insertCache c t (reflectZero t)) := by
        intro p hp
        rcases List.mem_cons.mp hp with hp | hp
        · rw [hp]
        · exact h p hp
      refine ⟨?_, ?_, ?_⟩
      · simp [zeroValueOf, hv]
      · simpa [zeroValueOf, hv] using hwf
      · simp [zeroValueOf, hv, insertCache, lookupCache]

/-- Closed instance of `zeroValueOf_spec` at the empty cache and `bool`. -/
theorem zeroValueOf_spec_witness :
    (zeroValueOf [] .bool).1 = reflectZero .bool ∧
    cacheWF (zeroValueOf [] .bool).2 ∧
    (zeroValueOf (zeroValueOf [] .bool).2 .bool).1 = reflectZero .bool :=
  zeroValueOf_spec [] .bool (by simp [cacheWF])

theorem inv_init {t : RTy} {c : Cache} (h : cacheWF c) : Inv t (initConfig c) :=
  ⟨h, trivial, trivial, rfl, rfl, by simp [initConfig, PC.writing]⟩

theorem inv_tstep_left {t : RTy} {sh sh' : Shared} {p p' q : PC}
    (h : TStep t sh p sh' p') (hi : Inv t ⟨sh, p, q⟩) : Inv t ⟨sh', p', q⟩ := by
  obtain ⟨hwf, hp, hq, hr, hw, hmx⟩ := hi
  cases h with
  | rlock r c =>
      refine ⟨hwf, trivial, hq, ?_, ?_, ?_⟩
      · simp [PC.readCount] at hr ⊢; omega
      · exact hw
      · exact hmx
  | readc sh =>
      refine ⟨hwf, ?_, hq, ?_, ?_, ?_⟩
      · intro v hv
        exact lookupCache_wf hwf hv
      · simpa [PC.readCount] using hr
      · exact hw
      · exact hmx
  | runlock r w c x =>
      refine ⟨hwf, hp, hq, ?_, ?_, ?_⟩
      · simp [PC.readCount] at hr ⊢; omega
      · exact hw
      · exact hmx
  | hit sh v =>
      refine ⟨hwf, hp v rfl, hq, ?_, ?_, ?_⟩
      · simpa [PC.readCount] using hr
      · exact hw
      · exact hmx
  | build sh =>
      refine ⟨hwf, rfl, hq, ?_, ?_, ?_⟩
      · simpa [PC.readCount] using hr
      · exact hw
      · exact hmx
  | wlock c v =>
      have hqw : q.writing = false := by
        simpa [PC.writing] using hw
      refine ⟨hwf, hp, hq, ?_, ?_, ?_⟩
      · simpa [PC.readCount] using hr
      · show true = (PC.writing (.wlocked v) || q.writing)
        rw [hqw]; rfl
      · exact fun hcon => absurd hcon.2 (by rw [hqw]; simp)
  | ins r w c v =>
      refine ⟨?_, hp, hq, ?_, ?_, ?_⟩
      · intro pr hpr
        rcases List.mem_cons.mp hpr with hpr | hpr
        · rw [hpr]; exact hp
        · exact hwf pr hpr
      · simpa [PC.readCount] using hr
      · simpa [PC.writing] using hw
      · simpa [PC.writing] using hmx
  | wunlock r c v =>
      have hqw : q.writing = false := by
        cases hqq : q.writing with
        | false => rfl
        | true => exact absurd ⟨rfl, hqq⟩ hmx
      refine ⟨hwf, hp, hq, ?_, ?_, ?_⟩
      · simpa [PC.readCount] using hr
      · show false = (PC.writing (.done v) || q.writing)
        rw [hqw]; rfl
      · exact fun hcon => by simpa [PC.writing] using hcon.1

theorem inv_swap {t : RTy} {cfg : Config} (hi : Inv t cfg) :
    Inv t ⟨cfg.sh, cfg.q, cfg.p⟩ := by
  obtain ⟨hwf, hp, hq, hr, hw, hmx⟩ := hi
  refine ⟨hwf, hq, hp, ?_, ?_, fun hcon => hmx ⟨hcon.2, hcon.1⟩⟩
  · show cfg.sh.readers = cfg.q.readCount + cfg.p.readCount
    rw [hr]; omega
  · show cfg.sh.writer = (cfg.q.writing || cfg.p.writing)
    rw [hw, Bool.or_comm]

theorem inv_step {t : RTy} {c c' : Config} (hs : Step t c c') (hi : Inv t c) :
    Inv t c' := by
  cases hs with
  | left h => exact inv_tstep_left h hi
  | right h => exact inv_swap (inv_tstep_left h (inv_swap hi))

theorem inv_reach {t : RTy} {c0 : Cache} {cfg : Config} (h0 : cacheWF c0)
    (hr : Relation.ReflTransGen (Step t) (initConfig c0) cfg) : Inv t cfg := by
  induction hr with
  | refl => exact inv_init h0
  | tail _ hstep ih => exact inv_step hstep ih

/-- C7: under any interleaving of two threads calling `zeroValueOf` on the
same type `t` from a well-formed cache, the lock discipline and the benign
race are as specified: the cache is read only while the reader count is
positive and written only while the writer flag is set, at most one thread is
ever inside the write section, a thread holds neither lock while it builds
the value, both threads return the very same value `reflect.Zero(t)`, and the
cache entry for `t` — whichever thread inserted it first — is that value
too. -/
theorem zeroCache_concurrent_spec (t : RTy) (c0 : Cache) (cfg : Config)
    (h0 : cacheWF c0)
    (hr : Relation.ReflTransGen (Step t) (initConfig c0) cfg) :
    (∀ v, cfg.p = .done v → v = reflectZero t) ∧
    (∀ v, cfg.q = .done v → v = reflectZero t) ∧
    cacheWF cfg.sh.cache ∧
    (∀ v, lookupCache cfg.sh.cache t = some v → v = reflectZero t) ∧
    ¬(cfg.p.writing = true ∧ cfg.q.writing = true) ∧
    (cfg.p.writing = true → cfg.sh.writer = true) ∧
    (cfg.q.writing = true → cfg.sh.writer = true) ∧
    (1 ≤ cfg.p.readCount → 1 ≤ cfg.sh.readers) ∧
    (1 ≤ cfg.q.readCount → 1 ≤ cfg.sh.readers) ∧
    (∀ v, cfg.p = .built v → cfg.p.readCount = 0 ∧ cfg.p.writing = false) ∧
    (∀ v, cfg.q = .built v → cfg.q.readCount = 0 ∧ cfg.q.writing = false) := by
  obtain ⟨hwf, hp, hq, hrd, hwr, hmx⟩ := inv_reach h0 hr
  refine ⟨?_, ?_, hwf, ?_, hmx, ?_, ?_, ?_, ?_, ?_, ?_⟩
  · intro v hv; rw [hv] at hp; exact hp
  · intro v hv; rw [hv] at hq; exact hq
  · intro v hv; exact lookupCache_wf hwf hv
  · intro hv; rw [hwr, hv]; rfl
  · intro hv; rw [hwr, hv, Bool.or_true]
  · intro hv; omega
  · intro hv; omega
  · intro v hv; rw [hv]; exact ⟨rfl, rfl⟩
  · intro v hv; rw [hv]; exact ⟨rfl, rfl⟩

/-- Closed instance of `zeroCache_concurrent_spec`: the initial configuration
on the empty cache and type `bool` already satisfies the mutual-exclusion
conclusion. -/
theorem zeroCache_concurrent_witness :
    ¬((initConfig ([] : Cache)).p.writing = true ∧
      (initConfig ([] : Cache)).q.writing = true) :=
  (zeroCache_concurrent_spec .bool [] (initConfig []) (by simp [cacheWF])
    Relation.ReflTransGen.refl).2.2.2.2.1

end Objconv
